import Mathlib

/-!
Verification development for the minimalirc IRC client library.

The definitions below are a shallow embedding of `minimalirc.go`: each Go
function that the claims mention is translated into a Lean function.  I/O is
made explicit: the line writer is modelled as an oracle
`w : String → Option String` returning `none` on a successful write and
`some err` on a failed one, and the effects of an operation are returned as a
list of events (`Ev`).  Strings are Lean `String`s; the Go standard-library
string helpers that the code uses (`strings.SplitN`, `strings.ToLower`,
`strings.HasPrefix`, `unicode.IsDigit`, `unicode.IsNumber`, `fmt.Sprintf`)
are embedded below on their ASCII fragment, which is the fragment the IRC
protocol traffic in question exercises.
-/

namespace Minimalirc

/-- Embeds Go `unicode.IsDigit` on the ASCII fragment (category Nd restricted
to ASCII is exactly the digits `0`-`9`). -/
def goIsDigit (c : Char) : Bool := c.isDigit

/-- Embeds Go `unicode.IsNumber` on the ASCII fragment; on ASCII, category N
coincides with the digits `0`-`9`, so it agrees with `goIsDigit` there. -/
def goIsNumber (c : Char) : Bool := c.isDigit

/-- Embeds Go `unicode.ToLower` on the ASCII fragment: map each upper-case
letter to its lower-case counterpart and leave every other character
unchanged. -/
def goCharToLower : Char → Char
  | 'A' => 'a' | 'B' => 'b' | 'C' => 'c' | 'D' => 'd' | 'E' => 'e' | 'F' => 'f'
  | 'G' => 'g' | 'H' => 'h' | 'I' => 'i' | 'J' => 'j' | 'K' => 'k' | 'L' => 'l'
  | 'M' => 'm' | 'N' => 'n' | 'O' => 'o' | 'P' => 'p' | 'Q' => 'q' | 'R' => 'r'
  | 'S' => 's' | 'T' => 't' | 'U' => 'u' | 'V' => 'v' | 'W' => 'w' | 'X' => 'x'
  | 'Y' => 'y' | 'Z' => 'z'
  | c => c

/-- Embeds Go `strings.ToLower` on the ASCII fragment: lower-case each
character. -/
def goToLower (s : String) : String := String.mk (s.data.map goCharToLower)

/-- Embeds Go `strings.HasPrefix` on character lists. -/
def goStartsWithL : List Char → List Char → Bool
  | _, [] => true
  | [], _ :: _ => false
  | c :: cs, p :: ps => c = p && goStartsWithL cs ps

/-- Embeds Go `strings.HasPrefix`. -/
def goStartsWith (s pre : String) : Bool := goStartsWithL s.data pre.data

/-- Split a character list at the first occurrence of `sep`: returns the part
before and the part after, or `none` when `sep` does not occur. -/
def breakAtChar (sep : Char) : List Char → Option (List Char × List Char)
  | [] => none
  | c :: cs =>
    if c = sep then some ([], cs)
    else match breakAtChar sep cs with
      | none => none
      | some (a, b) => some (c :: a, b)

/-- Embeds Go `strings.SplitN(s, sep, n)` for a one-character separator, on
character lists: at most `n` substrings, the last one holding the unsplit
remainder; `n = 0` yields the empty list, as in Go. -/
def goSplitNL (sep : Char) : Nat → List Char → List (List Char)
  | 0, _ => []
  | 1, s => [s]
  | Nat.succ n, s =>
    match breakAtChar sep s with
    | none => [s]
    | some (a, b) => a :: goSplitNL sep n b

/-- Embeds Go `strings.SplitN(s, sep, n)` for a one-character separator. -/
def goSplitN (s : String) (sep : Char) (n : Nat) : List String :=
  (goSplitNL sep n s.data).map String.mk

/-- Configuration and identity fields of the `IRC` struct of `minimalirc.go`.
The runtime fields (`r`, `w`, the channels, `snick`, `rng`) are modelled
separately: the writer as an oracle argument, the channels as event lists,
`snick` as an explicit state argument, and the random generator as a natural
number argument standing for the non-negative result of `rng.Int63()`. -/
structure IRC where
  Msglen : Int
  Default : String
  Host : String
  Port : Nat
  Ssl : Bool
  Hostname : String
  Nick : String
  Username : String
  Realname : String
  IdNick : String
  IdPass : String
  Channel : String
  Chanpass : String
  Txp : String
  Rxp : String
  Pongs : Bool
  RandomNumbers : Bool
  QuitMessage : String
deriving DecidableEq, Repr

/-- Embeds `New` of `minimalirc.go`: allocates an `IRC` with the given
identity fields, `Msglen` defaulted to 467, `hostname` defaulted to `host`
when SSL is requested and no hostname is given, and every other field at its
zero value. -/
def New (host : String) (port : Nat) (ssl : Bool) (hostname nick username realname : String) : IRC :=
  { Msglen := 467
    Default := ""
    Host := host
    Port := port
    Ssl := ssl
    Hostname := if ssl && hostname = "" then host else hostname
    Nick := nick
    Username := username
    Realname := realname
    IdNick := ""
    IdPass := ""
    Channel := ""
    Chanpass := ""
    Txp := ""
    Rxp := ""
    Pongs := false
    RandomNumbers := false
    QuitMessage := "" }

/-- Observable channel/transport events of a session operation or of one
reader-loop iteration.  `send l` is a line handed to the transport writer via
`PrintfLine`, `esend e` is `i.e <- e`, `closeC` is `close(i.c)`, `deliver l`
is `i.c <- l`, `closeS` is `i.S.Close()`, and `panicSendClosed` marks a Go
runtime panic caused by a send on the already-closed channel `i.c`. -/
inductive Ev where
  | send : String → Ev
  | esend : String → Ev
  | closeC : Ev
  | deliver : String → Ev
  | closeS : Ev
  | panicSendClosed : Ev
deriving DecidableEq, Repr

/-- Embeds the `target` method: fallback chain explicit target, then
`i.Default`, then `i.Channel`; returns `""` when none resolves. -/
def target (i : IRC) (t : String) : String :=
  let t1 := if t = "" then i.Default else t
  let t2 := if t1 = "" then i.Channel else t1
  t2

/-- Embeds `Privmsg`: resolves the target via `target`; a no-op when nothing
resolves, otherwise one `PRIVMSG <target> :<msg>` line whose write error is
returned unwrapped.  The first component lists the lines handed to the
writer, the second is the returned error. -/
def Privmsg (i : IRC) (msg tgt : String) (w : String → Option String) :
    List String × Option String :=
  let t := target i tgt
  if t = "" then ([], none)
  else
    let l := "PRIVMSG " ++ t ++ " :" ++ msg
    (([l] : List String), w l)

/-- Embeds `PrivmsgSize`: `-1` when no target resolves, otherwise `i.Msglen`
minus the byte length of `PRIVMSG <target> :`. -/
def PrivmsgSize (i : IRC) (tgt : String) : Int :=
  let t := target i tgt
  if t = "" then -1
  else i.Msglen - (("PRIVMSG " ++ t ++ " :").utf8ByteSize : Int)

/-- Embeds `Join`: an empty channel argument falls back to `i.Channel` and
`i.Chanpass` (replacing the given password); a no-op when the resolved
channel is still empty; otherwise one `JOIN <channel> <pass>` line, the
write error wrapped with the channel name. -/
def Join (i : IRC) (channel pass : String) (w : String → Option String) :
    List String × Option String :=
  let cp := if channel = "" then (i.Channel, i.Chanpass) else (channel, pass)
  if cp.1 = "" then ([], none)
  else
    let l := "JOIN " ++ cp.1 ++ " " ++ cp.2
    match w l with
    | some e => ([l], some ("error joining " ++ cp.1 ++ ": " ++ e))
    | none => ([l], none)

/-- Embeds `Auth`: a no-op unless both NickServ credentials are set;
otherwise one `PRIVMSG NickServ :identify <nick> <pass>` line, the write
error wrapped. -/
def Auth (i : IRC) (w : String → Option String) : List String × Option String :=
  if i.IdNick = "" || i.IdPass = "" then ([], none)
  else
    let l := "PRIVMSG NickServ :identify " ++ i.IdNick ++ " " ++ i.IdPass
    match w l with
    | some e => ([l], some ("error authenticating to services: " ++ e))
    | none => ([l], none)

/-- The nick used by `ID`: `i.Nick`, with `-<rnd>` appended when
`i.RandomNumbers` is set (`rnd` stands for the non-negative `rng.Int63()`). -/
def idNickStr (i : IRC) (rnd : Nat) : String :=
  if i.RandomNumbers then i.Nick ++ "-" ++ toString rnd else i.Nick

/-- The three registration lines `ID` iterates over, in source order. -/
def idLines (i : IRC) (rnd : Nat) : List String :=
  ["NICK :" ++ idNickStr i rnd,
   "USER " ++ i.Username ++ " x x :" ++ i.Realname,
   "NICK"]

/-- Send a list of lines in order, stopping at the first write failure;
returns the attempted lines and, on failure, the failing line with its
error. -/
def goSendLines (w : String → Option String) :
    List String → List String × Option (String × String)
  | [] => ([], none)
  | l :: ls =>
    match w l with
    | some e => ([l], some (l, e))
    | none =>
      let p := goSendLines w ls
      (l :: p.1, p.2)

/-- Embeds `ID`: a no-op when any of nick, username, realname is empty;
otherwise sends the three `idLines` in order, aborting at the first failure
and wrapping its error with the failed line. -/
def ID (i : IRC) (rnd : Nat) (w : String → Option String) :
    List String × Option String :=
  if i.Nick = "" || i.Username = "" || i.Realname = "" then ([], none)
  else
    let p := goSendLines w (idLines i rnd)
    (p.1, p.2.map (fun le => "error sending ID line " ++ le.1 ++ ": " ++ le.2))

/-- Embeds `Handshake`: `ID`, then `Auth`, then `Join("", "")`, in that
order, short-circuiting at the first error and wrapping it with the step
name. -/
def Handshake (i : IRC) (rnd : Nat) (w : String → Option String) :
    List String × Option String :=
  match ID i rnd w with
  | (ls, some e) => (ls, some ("handshake error (ID): " ++ e))
  | (ls, none) =>
    match Auth i w with
    | (as, some e) => (ls ++ as, some ("handshake error (Auth): " ++ e))
    | (as, none) =>
      match Join i "" "" w with
      | (js, some e) => (ls ++ as ++ js, some ("handshake error (Join): " ++ e))
      | (js, none) => (ls ++ as ++ js, none)

/-- The line `Quit` sends: the explicit message, else `i.QuitMessage`, made
"protocolish" by the ` :` separator when non-empty, appended to `QUIT`. -/
def quitLine (i : IRC) (msg : String) : String :=
  let m1 := if msg = "" && i.QuitMessage ≠ "" then i.QuitMessage else msg
  let m2 := if m1 ≠ "" then " :" ++ m1 else m1
  "QUIT" ++ m2

/-- Embeds `Quit`: resolves the message (explicit, else `i.QuitMessage`,
else none), sends `QUIT` with an optional ` :<msg>` suffix, and closes the
transport only when the send succeeded; `closeRes` is the result of
`i.S.Close()`.  Returns the event trace and the returned error. -/
def Quit (i : IRC) (msg : String) (w : String → Option String)
    (closeRes : Option String) : List Ev × Option String :=
  match w (quitLine i msg) with
  | some e => ([Ev.send (quitLine i msg)], some e)
  | none => ([Ev.send (quitLine i msg), Ev.closeS], closeRes)

/-- The suffix the auto-PONG uses: `strings.SplitN(line, " ", 2)[1]`.  The Go
code indexes `[1]` unguarded; it exists because the branch is only reached
when the lowered line starts with `"ping "`, which contains a space. -/
def pongSuffix (line : String) : String := (goSplitN line ' ' 2).getD 1 ""

/-- Embeds the passive nick observation of the reader loop: split the line
with `strings.SplitN(line, " ", 4)`; when exactly 4 parts result and the
second is exactly 3 characters satisfying `IsNumber`/`IsDigit`/`IsDigit`,
the new observed nick is the third part, otherwise the old one. -/
def nickScan (line snick : String) : String :=
  let parts := goSplitN line ' ' 4
  if parts.length = 4 then
    match (parts.getD 1 "").data with
    | [a, b, c] =>
      if goIsNumber a && goIsDigit b && goIsDigit c then parts.getD 2 ""
      else snick
    | _ => snick
  else snick

/-- Embeds `SNick`: returns the observed nick unchanged. -/
def SNick (snick : String) : String := snick

/-- Result of one iteration of the background reader loop: the new observed
nick, whether `i.c` is closed afterwards, the event trace of the iteration,
and whether the iteration ended in a Go runtime panic. -/
structure ReaderOut where
  snick : String
  cClosed : Bool
  events : List Ev
  panicked : Bool
deriving DecidableEq, Repr

/-- Embeds one iteration of the reader loop spawned by `Connect`, exactly as
written: `readRes` is the `ReadLine` result (an error yields the empty
line), `pongWrite` the write result of an attempted auto-PONG.  On a read
error the code sends on `i.e` and closes `i.c` but does not return, so the
iteration falls through to the trailing `i.c <- line`, which panics on the
now-closed channel; an auto-PONG write failure takes the same path. -/
def readerStep (i : IRC) (snick : String) (cClosed : Bool)
    (readRes : Except String String) (pongWrite : Option String) : ReaderOut :=
  let line := match readRes with
    | .ok l => l
    | .error _ => ""
  let s1 : List Ev × Bool := match readRes with
    | .error e => ([Ev.esend e, Ev.closeC], true)
    | .ok _ => ([], cClosed)
  let s2 : List Ev × Bool :=
    if i.Pongs && goStartsWith (goToLower line) "ping " then
      match pongWrite with
      | some e => ([Ev.esend e, Ev.closeC], true)
      | none => ([Ev.send ("PONG " ++ pongSuffix line)], s1.2)
    else ([], s1.2)
  let snick2 := nickScan line snick
  let s3 : List Ev × Bool :=
    if s2.2 then ([Ev.panicSendClosed], true) else ([Ev.deliver line], false)
  ⟨snick2, s2.2, s1.1 ++ s2.1 ++ s3.1, s3.2⟩

/-- Spec-side helper, following the spec's words "whitespace-separated
tokens": the maximal non-empty runs of non-whitespace characters of the
line.  Used only to compare the spec's tokenisation with the code's
`strings.SplitN`. -/
def wsFields : List Char → List (List Char)
  | [] => [[]]
  | c :: r =>
    let acc := wsFields r
    if c.isWhitespace then [] :: acc
    else match acc with
      | [] => [[c]]
      | t :: ts => (c :: t) :: ts

/-- Spec-side helper: the whitespace-separated tokens of a string. -/
def wsTokens (s : String) : List String :=
  ((wsFields s.data).filter (fun t => t ≠ [])).map String.mk

/-- Claim-side helper: the part of the line strictly after its first space
(the whole line when it has no space). -/
def afterFirstSpace (s : String) : String :=
  match breakAtChar ' ' s.data with
  | none => s
  | some p => String.mk p.2

/-- Test fixture: the configuration of the spec's end-to-end scenario. -/
def cfgBond : IRC := New "irc.example.org" 6667 false "" "bond" "james" "James Bond"

/-- Test fixture: `cfgBond` with a default channel configured. -/
def cfgJoin : IRC := { cfgBond with Channel := "#chan" }

/-- Embeds Go `fmt.Sprintf` applied to a format string with no arguments, as
`textproto.Writer.PrintfLine` does to the already-formatted line that
`IRC.PrintfLine` passes it.  `%%` yields a literal `%`; a `%` followed by a
verb character with no argument to consume yields `%!<verb>(MISSING)`; a
trailing `%` yields `%!(NOVERB)`; everything else is copied verbatim.  The
embedding treats the character after `%` as the verb, eliding Go's
flag/width parsing, which only changes the spelling of the error text, never
whether the output differs from the input. -/
def goFmtNA : List Char → List Char
  | [] => []
  | c :: rest =>
    if c = '%' then
      match rest with
      | [] => "%!(NOVERB)".data
      | c2 :: rest2 =>
        if c2 = '%' then '%' :: goFmtNA rest2
        else '%' :: '!' :: c2 :: ("(MISSING)".data ++ goFmtNA rest2)
    else c :: goFmtNA rest

/-- Embeds the second formatting pass inside `i.w.PrintfLine(line)`:
the resolved line is interpreted again as a format string with no
arguments. -/
def sprintfNoArgs (s : String) : String := String.mk (goFmtNA s.data)

/-- Embeds `IRC.PrintfLine`'s wire output for an already-resolved line:
`textproto.Writer.PrintfLine` formats the line again with no arguments and
appends the CR/LF terminator. -/
def printfLineWire (line : String) : String := sprintfNoArgs line ++ "\r\n"

/-- The number of `%` characters in a character list. -/
def pctCount : List Char → Nat
  | [] => 0
  | c :: r => (if c = '%' then 1 else 0) + pctCount r

/-- Claim-side condition for the passive nick observation: the
`strings.SplitN(line, " ", 4)` split yields exactly 4 parts and the second
part consists of exactly 3 numeric characters. -/
def numericReply (line : String) : Bool :=
  let parts := goSplitN line ' ' 4
  if parts.length = 4 then
    match (parts.getD 1 "").data with
    | [a, b, c] => goIsNumber a && goIsDigit b && goIsDigit c
    | _ => false
  else false

/-! ### Auxiliary lemmas -/

theorem pctCount_append (a b : List Char) :
    pctCount (a ++ b) = pctCount a + pctCount b := by
  induction a with
  | nil => simp [pctCount]
  | cons c r ih => simp [pctCount, ih]; omega

theorem goFmtNA_cons (c : Char) (r : List Char) :
    goFmtNA (c :: r) =
      if c = '%' then
        match r with
        | [] => "%!(NOVERB)".data
        | c2 :: rest2 =>
          if c2 = '%' then '%' :: goFmtNA rest2
          else '%' :: '!' :: c2 :: ("(MISSING)".data ++ goFmtNA rest2)
      else c :: goFmtNA r := by
  rw [goFmtNA.eq_def]

theorem goFmtNA_of_not_mem : ∀ {l : List Char}, '%' ∉ l → goFmtNA l = l := by
  intro l h
  induction l with
  | nil => rfl
  | cons c r ih =>
    have hc : ¬(c = '%') := fun hc => h (by simp [hc])
    have hr : '%' ∉ r := fun hr => h (List.mem_cons_of_mem _ hr)
    rw [goFmtNA_cons, if_neg hc, ih hr]

theorem pctCount_cons (c : Char) (r : List Char) :
    pctCount (c :: r) = (if c = '%' then 1 else 0) + pctCount r := rfl

theorem goFmtNA_cons_ne {c : Char} (hc : ¬(c = '%')) (r : List Char) :
    goFmtNA (c :: r) = c :: goFmtNA r := by
  rw [goFmtNA_cons, if_neg hc]

theorem goFmtNA_pct_pct (r : List Char) :
    goFmtNA ('%' :: '%' :: r) = '%' :: goFmtNA r := by
  rw [goFmtNA_cons]
  simp

theorem goFmtNA_pct_verb {c : Char} (hc : ¬(c = '%')) (r : List Char) :
    goFmtNA ('%' :: c :: r) = '%' :: '!' :: c :: ("(MISSING)".data ++ goFmtNA r) := by
  rw [goFmtNA_cons]
  simp [hc]

theorem goFmtNA_pct_le_aux :
    ∀ (n : Nat) (l : List Char), l.length ≤ n →
      pctCount (goFmtNA l) ≤ pctCount l := by
  intro n
  induction n with
  | zero =>
    intro l hl
    have h0 : l = [] := List.eq_nil_of_length_eq_zero (Nat.le_zero.mp hl)
    subst h0
    simp [goFmtNA]
  | succ n ih =>
    intro l hl
    match l with
    | [] => simp [goFmtNA]
    | c :: r =>
      by_cases hc : c = '%'
      · subst hc
        match r with
        | [] => decide
        | c2 :: r2 =>
          have hr2 : r2.length ≤ n := by
            simp only [List.length_cons] at hl; omega
          by_cases hc2 : c2 = '%'
          · subst hc2
            rw [goFmtNA_pct_pct]
            have := ih r2 hr2
            simp [pctCount_cons]
            omega
          · rw [goFmtNA_pct_verb hc2]
            have := ih r2 hr2
            have hm : pctCount ("(MISSING)".data) = 0 := by decide
            simp [pctCount_cons, pctCount_append, if_neg hc2, hm]
            omega
      · rw [goFmtNA_cons_ne hc]
        have hr : r.length ≤ n := by
          simp only [List.length_cons] at hl; omega
        have := ih r hr
        simp only [pctCount_cons]
        omega

theorem goFmtNA_pct_le (l : List Char) : pctCount (goFmtNA l) ≤ pctCount l :=
  goFmtNA_pct_le_aux l.length l le_rfl

theorem goFmtNA_measure_aux :
    ∀ (n : Nat) (l : List Char), l.length ≤ n → '%' ∈ l →
      pctCount (goFmtNA l) < pctCount l ∨
        (pctCount (goFmtNA l) = pctCount l ∧ l.length < (goFmtNA l).length) := by
  intro n
  induction n with
  | zero =>
    intro l hl hm
    have h0 : l = [] := List.eq_nil_of_length_eq_zero (Nat.le_zero.mp hl)
    subst h0
    cases hm
  | succ n ih =>
    intro l hl hm
    match l with
    | [] => cases hm
    | c :: r =>
      by_cases hc : c = '%'
      · subst hc
        match r with
        | [] => exact Or.inr (by decide)
        | c2 :: r2 =>
          have hr2 : r2.length ≤ n := by
            simp only [List.length_cons] at hl; omega
          by_cases hc2 : c2 = '%'
          · subst hc2
            rw [goFmtNA_pct_pct]
            have := goFmtNA_pct_le r2
            refine Or.inl ?_
            simp [pctCount_cons]
            omega
          · rw [goFmtNA_pct_verb hc2]
            have hm0 : pctCount ("(MISSING)".data) = 0 := by decide
            have hl0 : ("(MISSING)".data).length = 9 := by decide
            have hb : ¬('!' = '%') := by decide
            by_cases hm2 : '%' ∈ r2
            · rcases ih r2 hr2 hm2 with h1 | ⟨h2, h3⟩
              · refine Or.inl ?_
                simp [pctCount_cons, pctCount_append, if_neg hc2, hm0]
                omega
              · refine Or.inr ⟨?_, ?_⟩
                · simp [pctCount_cons, pctCount_append, if_neg hc2, hm0]
                  omega
                · simp only [List.length_cons, List.length_append, hl0]
                  omega
            · have hfix : goFmtNA r2 = r2 := goFmtNA_of_not_mem hm2
              rw [hfix]
              refine Or.inr ⟨?_, ?_⟩
              · simp [pctCount_cons, pctCount_append, if_neg hc2, hm0]
              · simp only [List.length_cons, List.length_append, hl0]
                omega
      · have hm' : '%' ∈ r := by
          rcases List.mem_cons.mp hm with h1 | h1
          · exact absurd h1.symm hc
          · exact h1
        have hr : r.length ≤ n := by
          simp only [List.length_cons] at hl; omega
        rw [goFmtNA_cons_ne hc]
        rcases ih r hr hm' with h1 | ⟨h2, h3⟩
        · refine Or.inl ?_
          simp only [pctCount_cons]
          omega
        · refine Or.inr ⟨?_, ?_⟩
          · simp only [pctCount_cons]
            omega
          · simp only [List.length_cons]
            omega

theorem goFmtNA_ne_of_mem {l : List Char} (h : '%' ∈ l) : goFmtNA l ≠ l := by
  intro he
  rcases goFmtNA_measure_aux l.length l le_rfl h with h1 | ⟨_, h3⟩
  · rw [he] at h1
    exact absurd h1 (lt_irrefl _)
  · rw [he] at h3
    exact absurd h3 (lt_irrefl _)

theorem goStartsWithL_mem :
    ∀ {s p : List Char}, goStartsWithL s p = true → ∀ x ∈ p, x ∈ s := by
  intro s
  induction s with
  | nil =>
    intro p h x hx
    cases p with
    | nil => cases hx
    | cons q qs => simp [goStartsWithL] at h
  | cons c cs ih =>
    intro p h x hx
    cases p with
    | nil => cases hx
    | cons q qs =>
      simp only [goStartsWithL, Bool.and_eq_true, decide_eq_true_eq] at h
      rcases List.mem_cons.mp hx with h1 | h1
      · subst h1
        rw [← h.1]
        exact List.mem_cons_self c cs
      · exact List.mem_cons_of_mem _ (ih h.2 x h1)

theorem goCharToLower_space {c : Char} (h : goCharToLower c = ' ') : c = ' ' := by
  unfold goCharToLower at h
  split at h <;> first
    | rfl
    | exact absurd h (by decide)
    | exact h

theorem breakAtChar_some_of_mem :
    ∀ {l : List Char}, ' ' ∈ l → ∃ p, breakAtChar ' ' l = some p := by
  intro l h
  induction l with
  | nil => cases h
  | cons c cs ih =>
    by_cases hc : c = ' '
    · exact ⟨([], cs), by simp [breakAtChar, hc]⟩
    · have h' : ' ' ∈ cs := by
        rcases List.mem_cons.mp h with h1 | h1
        · exact absurd h1.symm hc
        · exact h1
      obtain ⟨p, hp⟩ := ih h'
      exact ⟨(c :: p.1, p.2), by simp [breakAtChar, hc, hp]⟩

theorem space_mem_of_ping {line : String}
    (h : goStartsWith (goToLower line) "ping " = true) : ' ' ∈ line.data := by
  have hmem : (' ' : Char) ∈ ("ping " : String).data := by decide
  have h2 : ' ' ∈ (goToLower line).data := goStartsWithL_mem h _ hmem
  simp only [goToLower] at h2
  obtain ⟨c, hc, hcl⟩ := List.mem_map.mp h2
  rwa [goCharToLower_space hcl] at hc

theorem pongSuffix_eq_afterFirstSpace (line : String)
    (h : goStartsWith (goToLower line) "ping " = true) :
    pongSuffix line = afterFirstSpace line := by
  obtain ⟨⟨a, b⟩, hab⟩ := breakAtChar_some_of_mem (space_mem_of_ping h)
  simp [pongSuffix, goSplitN, goSplitNL, afterFirstSpace, hab]

theorem goSendLines_take (w : String → Option String) :
    ∀ ls : List String,
      (goSendLines w ls).1 = ls.take (goSendLines w ls).1.length ∧
      ((goSendLines w ls).2 = none → (goSendLines w ls).1 = ls) ∧
      (∀ l e, (goSendLines w ls).2 = some (l, e) →
        (goSendLines w ls).1.getLast? = some l ∧ w l = some e) := by
  intro ls
  induction ls with
  | nil => exact ⟨rfl, fun _ => rfl, fun l e h => by simp [goSendLines] at h⟩
  | cons x xs ih =>
    cases hw : w x with
    | some e0 =>
      refine ⟨?_, ?_, ?_⟩
      · simp [goSendLines, hw]
      · intro h2
        simp [goSendLines, hw] at h2
      · intro l e h2
        simp [goSendLines, hw] at h2
        obtain ⟨h3, h4⟩ := h2
        subst h3; subst h4
        refine ⟨by simp [goSendLines, hw], hw⟩
    | none =>
      obtain ⟨ih1, ih2, ih3⟩ := ih
      refine ⟨?_, ?_, ?_⟩
      · simp only [goSendLines, hw, List.length_cons, List.take_succ_cons]
        exact congrArg (x :: ·) ih1
      · intro h2
        simp only [goSendLines, hw] at h2
        simp only [goSendLines, hw]
        rw [ih2 h2]
      · intro l e h2
        simp only [goSendLines, hw] at h2
        obtain ⟨h3, h4⟩ := ih3 l e h2
        refine ⟨?_, h4⟩
        simp only [goSendLines, hw]
        cases hp : (goSendLines w xs).1 with
        | nil => rw [hp] at h3; simp at h3
        | cons b bs =>
          rw [hp] at h3
          rw [List.getLast?_cons_cons]
          exact h3

theorem goSendLines_fst_ne_nil (w : String → Option String) (x : String)
    (xs : List String) : (goSendLines w (x :: xs)).1 ≠ [] := by
  cases hw : w x <;> simp [goSendLines, hw]

theorem goSendLines_all_none (w : String → Option String)
    (hall : ∀ l, w l = none) : ∀ ls, goSendLines w ls = (ls, none) := by
  intro ls
  induction ls with
  | nil => rfl
  | cons x xs ih => simp [goSendLines, hall x, ih]

/-! ### Claim theorems -/

/-- C1: contrary to the claim, the reader loop does not terminate cleanly on
a transport read error.  The code does place the error on the error channel
and close the output channel, but it lacks a return: the iteration falls
through the rest of the loop body and executes the delivery send
`i.c <- line` on the channel it just closed, which is a Go runtime panic.
For every configuration, observed nick and read error, the iteration's
event trace is exactly error-send, output-channel close, panic-on-send,
and the iteration ends panicked. -/
theorem readerLoop_readError_panics (i : IRC) (sn e : String) :
    (readerStep i sn false (.error e) none).events =
      [Ev.esend e, Ev.closeC, Ev.panicSendClosed] ∧
    (readerStep i sn false (.error e) none).panicked = true := by
  have h0 : goStartsWith (goToLower "") "ping " = false := by decide
  have hq : (i.Pongs && goStartsWith (goToLower "") "ping ") = false := by
    rw [h0]; exact Bool.and_false _
  constructor <;> simp [readerStep, hq]

/-- C2 (counterexample): the claim says a line whose whitespace split has
more than 4 tokens leaves the observed nick unchanged, but the code splits
with `strings.SplitN(line, " ", 4)`, whose 4th part absorbs the rest of the
line.  The 6-token line `:irc.example.org 001 bond :Welcome to IRC` — the
shape of a real IRC numeric reply — sets the observed nick to `bond`. -/
theorem nickScan_updates_on_six_tokens :
    (wsTokens ":irc.example.org 001 bond :Welcome to IRC").length = 6 ∧
    nickScan ":irc.example.org 001 bond :Welcome to IRC" "old" = "bond" ∧
    ("bond" : String) ≠ "old" := by decide

/-- C2 (amended): the observed nick is set to the third part of
`strings.SplitN(line, " ", 4)` exactly when that split yields 4 parts and
the second part consists of exactly 3 numeric characters (so any line with
at least four space-separated fields whose second field is a 3-digit code
updates it); for every other line it is unchanged. -/
theorem nickScan_rule (line old : String) :
    nickScan line old =
      if numericReply line = true then (goSplitN line ' ' 4).getD 2 "" else old := by
  by_cases h4 : (goSplitN line ' ' 4).length = 4
  · rcases hD : ((goSplitN line ' ' 4).getD 1 "").data with _ | ⟨a, _ | ⟨b, _ | ⟨c, _ | ⟨d, t⟩⟩⟩⟩ <;>
      simp only [nickScan, numericReply, h4, hD] <;> rfl
  · simp only [nickScan, numericReply, h4]
    rfl

/-- C3: when auto-pong is enabled and the lowered line starts with
`"ping "`, the reader-loop iteration sends exactly one `PONG` line whose
suffix is exactly the part of the line after its first space, and does so
before delivering the triggering line on the output channel; when auto-pong
is disabled or the line does not match, no `PONG` is sent and the line is
simply delivered. -/
theorem readerLoop_pong (i : IRC) (sn line : String) :
    ((i.Pongs && goStartsWith (goToLower line) "ping ") = true →
      (readerStep i sn false (.ok line) none).events =
        [Ev.send ("PONG " ++ afterFirstSpace line), Ev.deliver line]) ∧
    ((i.Pongs && goStartsWith (goToLower line) "ping ") = false →
      (readerStep i sn false (.ok line) none).events = [Ev.deliver line]) := by
  constructor
  · intro h
    have hsw : goStartsWith (goToLower line) "ping " = true :=
      ((Bool.and_eq_true _ _).mp h).2
    simp [readerStep, h, pongSuffix_eq_afterFirstSpace line hsw]
  · intro h
    simp [readerStep, h]

theorem readerLoop_pong_witness :
    (readerStep { cfgBond with Pongs := true } "" false
        (.ok "PING :irc.example.org") none).events =
      [Ev.send "PONG :irc.example.org", Ev.deliver "PING :irc.example.org"] := by
  have h := (readerLoop_pong { cfgBond with Pongs := true } ""
      "PING :irc.example.org").1 (by decide)
  have h2 : afterFirstSpace "PING :irc.example.org" = ":irc.example.org" := by decide
  rw [h2] at h
  exact h

/-- C4: `ID` sends nothing and returns nil exactly when one of nick,
username, realname is empty; otherwise it sends the three registration
lines in fixed order — `NICK :<nick>` with a single `-<integer>` suffix
exactly when random-suffixing is enabled, then `USER <u> x x :<r>`, then
the bare `NICK` — and the first send failure aborts the remaining sends
and yields a wrapped error naming the failed line. -/
theorem ID_spec (i : IRC) (rnd : Nat) (w : String → Option String) :
    ((i.Nick = "" ∨ i.Username = "" ∨ i.Realname = "") ↔ ID i rnd w = ([], none)) ∧
    (idLines i rnd =
      ["NICK :" ++ i.Nick ++ (if i.RandomNumbers then "-" ++ toString rnd else ""),
       "USER " ++ i.Username ++ " x x :" ++ i.Realname, "NICK"]) ∧
    ((∀ l, w l = none) → ¬(i.Nick = "" ∨ i.Username = "" ∨ i.Realname = "") →
       ID i rnd w = (idLines i rnd, none)) ∧
    (∀ e, (ID i rnd w).2 = some e →
       ∃ l fe, (ID i rnd w).1.getLast? = some l ∧ w l = some fe ∧
         e = "error sending ID line " ++ l ++ ": " ++ fe ∧
         (ID i rnd w).1 = (idLines i rnd).take (ID i rnd w).1.length) := by
  have hlines : idLines i rnd =
      ["NICK :" ++ i.Nick ++ (if i.RandomNumbers then "-" ++ toString rnd else ""),
       "USER " ++ i.Username ++ " x x :" ++ i.Realname, "NICK"] := by
    by_cases hr : i.RandomNumbers <;>
      simp [idLines, idNickStr, hr, String.append_assoc]
  by_cases hempty : i.Nick = "" ∨ i.Username = "" ∨ i.Realname = ""
  · have hid : ID i rnd w = ([], none) := by
      rcases hempty with h | h | h <;> simp [ID, h]
    refine ⟨⟨fun _ => hid, fun _ => hempty⟩, hlines, fun _ h => absurd hempty h,
      fun e he => ?_⟩
    rw [hid] at he
    simp at he
  · have hN : ¬(i.Nick = "") := fun h => hempty (Or.inl h)
    have hU : ¬(i.Username = "") := fun h => hempty (Or.inr (Or.inl h))
    have hR : ¬(i.Realname = "") := fun h => hempty (Or.inr (Or.inr h))
    have hid : ID i rnd w =
        ((goSendLines w (idLines i rnd)).1,
         (goSendLines w (idLines i rnd)).2.map
           (fun le => "error sending ID line " ++ le.1 ++ ": " ++ le.2)) := by
      simp [ID, hN, hU, hR]
    refine ⟨⟨fun h => absurd h hempty, fun h => ?_⟩, hlines, fun hall _ => ?_,
      fun e he => ?_⟩
    · exfalso
      apply goSendLines_fst_ne_nil w ("NICK :" ++ idNickStr i rnd)
        ["USER " ++ i.Username ++ " x x :" ++ i.Realname, "NICK"]
      have h1 := congrArg Prod.fst h
      rw [hid] at h1
      simpa [idLines] using h1
    · rw [hid, goSendLines_all_none w hall]
      rfl
    · rw [hid] at he
      simp only [Option.map_eq_some'] at he
      obtain ⟨⟨l, fe⟩, ha, hwrap⟩ := he
      obtain ⟨t1, _, t3⟩ := goSendLines_take w (idLines i rnd)
      obtain ⟨g1, g2⟩ := t3 l fe ha
      refine ⟨l, fe, ?_, g2, hwrap.symm, ?_⟩
      · rw [hid]
        exact g1
      · rw [hid]
        exact t1

theorem ID_spec_witness :
    ID { cfgBond with RandomNumbers := true } 42 (fun _ => none) =
      (["NICK :bond-42", "USER james x x :James Bond", "NICK"], none) := by
  have h := (ID_spec { cfgBond with RandomNumbers := true } 42
      (fun _ => none)).2.2.1 (fun _ => rfl) (by decide)
  rw [h]
  decide

/-- C5: `Handshake` runs `ID`, then `Auth`, then `Join` with empty
arguments, in that fixed order, short-circuiting at the first failing step
with its error wrapped by the step name, and returning nil with the
concatenated sends when all three steps succeed. -/
theorem Handshake_spec (i : IRC) (rnd : Nat) (w : String → Option String) :
    (∀ ls e, ID i rnd w = (ls, some e) →
       Handshake i rnd w = (ls, some ("handshake error (ID): " ++ e))) ∧
    (∀ ls as e, ID i rnd w = (ls, none) → Auth i w = (as, some e) →
       Handshake i rnd w = (ls ++ as, some ("handshake error (Auth): " ++ e))) ∧
    (∀ ls as js e, ID i rnd w = (ls, none) → Auth i w = (as, none) →
       Join i "" "" w = (js, some e) →
       Handshake i rnd w = (ls ++ as ++ js, some ("handshake error (Join): " ++ e))) ∧
    (∀ ls as js, ID i rnd w = (ls, none) → Auth i w = (as, none) →
       Join i "" "" w = (js, none) →
       Handshake i rnd w = (ls ++ as ++ js, none)) := by
  refine ⟨?_, ?_, ?_, ?_⟩
  · intro ls e h
    simp [Handshake, h]
  · intro ls as e h1 h2
    simp [Handshake, h1, h2]
  · intro ls as js e h1 h2 h3
    simp [Handshake, h1, h2, h3]
  · intro ls as js h1 h2 h3
    simp [Handshake, h1, h2, h3]

theorem Handshake_spec_witness :
    Handshake cfgBond 7 (fun _ => none) =
      (["NICK :bond", "USER james x x :James Bond", "NICK"], none) := by
  have h := (Handshake_spec cfgBond 7 (fun _ => none)).2.2.2
    ["NICK :bond", "USER james x x :James Bond", "NICK"] [] []
    (by decide) (by decide) (by decide)
  simpa using h

/-- C6: `Join` with an empty channel argument falls back to the configured
default channel and password (replacing the given password); it sends
nothing and returns nil when the resolved channel is still empty, and
otherwise sends exactly one `JOIN <channel> <password>` line, with a
trailing space when the resolved password is empty. -/
theorem Join_spec (i : IRC) (channel pass : String) (w : String → Option String) :
    (channel = "" → Join i channel pass w = Join i i.Channel i.Chanpass w) ∧
    (channel = "" → i.Channel = "" → Join i channel pass w = ([], none)) ∧
    (channel ≠ "" → (Join i channel pass w).1 = ["JOIN " ++ channel ++ " " ++ pass]) ∧
    (channel ≠ "" → pass = "" → (Join i channel pass w).1 = ["JOIN " ++ channel ++ " "]) := by
  refine ⟨?_, ?_, ?_, ?_⟩
  · intro h
    subst h
    by_cases hc : i.Channel = ""
    · simp [Join, hc]
    · simp [Join, hc]
  · intro h hc
    subst h
    simp [Join, hc]
  · intro h
    cases hw : w ("JOIN " ++ channel ++ " " ++ pass) <;> simp [Join, h, hw]
  · intro h hp
    subst hp
    cases hw : w ("JOIN " ++ channel ++ " ") <;> simp [Join, h, hw]

theorem Join_spec_witness :
    (Join cfgJoin "" "x" (fun _ => none)).1 = ["JOIN #chan "] := by
  have h1 := (Join_spec cfgJoin "" "x" (fun _ => none)).1 rfl
  have h2 := (Join_spec cfgJoin "#chan" "" (fun _ => none)).2.2.2 (by decide) rfl
  rw [h1]
  exact h2

/-- C7: `Privmsg` resolves its target through explicit target, then
configured default target, then configured default channel; it sends
nothing and returns nil when nothing resolves, and otherwise sends exactly
one `PRIVMSG <target> :<message>` line whose write error is returned
unwrapped. -/
theorem Privmsg_spec (i : IRC) (msg tgt : String) (w : String → Option String) :
    (tgt ≠ "" → target i tgt = tgt) ∧
    (tgt = "" → i.Default ≠ "" → target i tgt = i.Default) ∧
    (tgt = "" → i.Default = "" → target i tgt = i.Channel) ∧
    (tgt = "" → i.Default = "" → i.Channel = "" → Privmsg i msg tgt w = ([], none)) ∧
    (target i tgt = "" → Privmsg i msg tgt w = ([], none)) ∧
    (target i tgt ≠ "" →
       Privmsg i msg tgt w =
         (["PRIVMSG " ++ target i tgt ++ " :" ++ msg],
          w ("PRIVMSG " ++ target i tgt ++ " :" ++ msg))) := by
  refine ⟨?_, ?_, ?_, ?_, ?_, ?_⟩
  · intro h
    simp [target, h]
  · intro h hd
    simp [target, h, hd]
  · intro h hd
    simp [target, h, hd]
  · intro h hd hc
    simp [Privmsg, target, h, hd, hc]
  · intro h
    simp [Privmsg, h]
  · intro h
    simp [Privmsg, h]

theorem Privmsg_spec_witness :
    Privmsg { cfgBond with Default := "#dft" } "hello" "" (fun _ => none) =
      (["PRIVMSG #dft :hello"], none) := by
  have h := (Privmsg_spec { cfgBond with Default := "#dft" } "hello" ""
      (fun _ => none)).2.2.2.2.2 (by decide)
  rw [h]
  decide

/-- C8: `PrivmsgSize` is a pure calculation: when a target resolves under
the same fallback chain as `Privmsg` it returns the configured maximum
line length (467 after `New`) minus the byte length of
`PRIVMSG <target> :`, and it returns -1 when no target resolves. -/
theorem PrivmsgSize_spec (i : IRC) (tgt : String) :
    (target i tgt ≠ "" →
      PrivmsgSize i tgt =
        i.Msglen - (("PRIVMSG " ++ target i tgt ++ " :").utf8ByteSize : Int)) ∧
    (target i tgt = "" → PrivmsgSize i tgt = -1) ∧
    (tgt = "" → i.Default = "" → i.Channel = "" → PrivmsgSize i tgt = -1) ∧
    (∀ h p s hn n u r, (New h p s hn n u r).Msglen = 467) := by
  refine ⟨?_, ?_, ?_, fun _ _ _ _ _ _ _ => rfl⟩
  · intro h
    simp [PrivmsgSize, h]
  · intro h
    simp [PrivmsgSize, h]
  · intro h hd hc
    simp [PrivmsgSize, target, h, hd, hc]

theorem PrivmsgSize_spec_witness :
    PrivmsgSize { cfgBond with Channel := "#chan" } "" = 452 := by
  have h := (PrivmsgSize_spec { cfgBond with Channel := "#chan" } "").1 (by decide)
  rw [h]
  decide

/-- C9: `Quit` resolves its message as the explicit argument when
non-empty, else the configured `QuitMessage` when non-empty, else none; the
single line sent is `QUIT :<message>` when a message resolved and the bare
`QUIT` otherwise; the transport is closed only when the send succeeded, and
`Quit` never closes the output channel. -/
theorem Quit_spec (i : IRC) (msg : String) (w : String → Option String)
    (closeRes : Option String) :
    (quitLine i msg =
      if (if msg ≠ "" then msg else i.QuitMessage) ≠ ""
      then "QUIT :" ++ (if msg ≠ "" then msg else i.QuitMessage)
      else "QUIT") ∧
    ((Quit i msg w closeRes).1 =
      if w (quitLine i msg) = none then [Ev.send (quitLine i msg), Ev.closeS]
      else [Ev.send (quitLine i msg)]) ∧
    Ev.closeC ∉ (Quit i msg w closeRes).1 ∧
    (w (quitLine i msg) ≠ none → Ev.closeS ∉ (Quit i msg w closeRes).1) := by
  refine ⟨?_, ?_, ?_, ?_⟩
  · have hq : ("QUIT" : String) ++ " :" = "QUIT :" := rfl
    by_cases hm : msg = ""
    · by_cases hqm : i.QuitMessage = "" <;>
        simp [quitLine, hm, hqm, ← String.append_assoc, hq]
    · simp [quitLine, hm, ← String.append_assoc, hq]
  · cases hw : w (quitLine i msg) <;> simp [Quit, hw]
  · cases hw : w (quitLine i msg) <;> simp [Quit, hw]
  · intro h
    cases hw : w (quitLine i msg)
    · exact absurd hw h
    · simp [Quit, hw]

theorem Quit_spec_witness :
    quitLine cfgBond "bye" = "QUIT :bye" ∧
    (Quit cfgBond "bye" (fun _ => none) none).1 =
      [Ev.send "QUIT :bye", Ev.closeS] := by
  have h := Quit_spec cfgBond "bye" (fun _ => none) none
  have h1 : quitLine cfgBond "bye" = "QUIT :bye" := by
    rw [h.1]
    decide
  refine ⟨h1, ?_⟩
  rw [h.2.1, h1]
  simp

/-- C10: `PrintfLine` applies formatting twice — the resolved line is
passed again as a format string to `textproto.Writer.PrintfLine` — so the
wire bytes of any resolved line containing a `%` character differ from
that line (plus the CR/LF terminator), while a line without `%` is written
verbatim. -/
theorem printfLine_doubleFormat (line : String) :
    printfLineWire line = sprintfNoArgs line ++ "\r\n" ∧
    ('%' ∈ line.data → sprintfNoArgs line ≠ line ∧
       printfLineWire line ≠ line ++ "\r\n") ∧
    ('%' ∉ line.data → printfLineWire line = line ++ "\r\n") := by
  refine ⟨rfl, ?_, ?_⟩
  · intro h
    have hne : sprintfNoArgs line ≠ line := by
      intro he
      have hd := congrArg String.data he
      simp only [sprintfNoArgs] at hd
      exact goFmtNA_ne_of_mem h hd
    refine ⟨hne, ?_⟩
    intro he
    apply hne
    have hd := congrArg String.data he
    rw [printfLineWire, String.data_append, String.data_append] at hd
    exact String.ext (List.append_cancel_right hd)
  · intro h
    have hfix : goFmtNA line.data = line.data := goFmtNA_of_not_mem h
    simp only [printfLineWire, sprintfNoArgs, hfix]

theorem printfLine_doubleFormat_witness :
    sprintfNoArgs "PRIVMSG #chan :50% off" ≠ "PRIVMSG #chan :50% off" ∧
    printfLineWire "PONG :irc.example.org" = "PONG :irc.example.org" ++ "\r\n" := by
  exact ⟨((printfLine_doubleFormat "PRIVMSG #chan :50% off").2.1 (by decide)).1,
    (printfLine_doubleFormat "PONG :irc.example.org").2.2 (by decide)⟩

end Minimalirc
